import Mathlib

/-!
Verification of the `naval` schema-validation library (`naval/core.py`).

The model is a shallow embedding of the value universe, the leaf filters and
the `Schema.run` execution algorithm.  Python dictionaries are modelled as
association lists with string keys in insertion order; the operations
`alookup` / `aset` / `adel` mirror `d[k]`, `d[k] = v` and `del d[k]`.
A filter is a function from a value to either a value or the payload of a
raised `ValidationError` (`ErrDetails`): filters whose Python implementation
can also let a non-`ValidationError` exception escape are treated in their
well-behaved fragment, except for `Apply` whose exception translation is
modelled explicitly (`ApplyF`).
-/

/-- Python runtime types occurring in the model (`type(value)`). -/
inductive PyTy where
  | int
  | str
  | bool
  | list
  | dict
  | nonetype
  | dictSubclass (name : String)
  | other (name : String)
deriving DecidableEq

/-- The fragment of Python values the schema engine manipulates. -/
inductive Value where
  | vint (n : Int)
  | vbool (b : Bool)
  | vstr (s : String)
  | vnone
  | vlist (xs : List Value)
  | vdict (sub : Option String) (entries : List (String × Value))
  | vobj (ty : String) (id : Nat)

/-- A Python dictionary with string keys, in insertion order. -/
abbrev Entries := List (String × Value)

/-- Dictionary read `m[k]` (first binding wins, as keys are unique in Python). -/
def alookup {α : Type} (m : List (String × α)) (k : String) : Option α :=
  match m with
  | [] => none
  | (k1, v) :: rest => if k1 = k then some v else alookup rest k

/-- Dictionary write `m[k] = v`: replaces the binding in place, else appends. -/
def aset {α : Type} (m : List (String × α)) (k : String) (v : α) : List (String × α) :=
  match m with
  | [] => [(k, v)]
  | (k1, v1) :: rest => if k1 = k then (k1, v) :: rest else (k1, v1) :: aset rest k v

/-- Dictionary deletion `del m[k]` (deleting an absent key is a no-op here;
the call sites in the source either guard the deletion or swallow `KeyError`). -/
def adel {α : Type} (m : List (String × α)) (k : String) : List (String × α) :=
  match m with
  | [] => []
  | (k1, v1) :: rest => if k1 = k then adel rest k else (k1, v1) :: adel rest k

/-- Dictionary key iteration `for k in m` (insertion order). -/
def akeys {α : Type} (m : List (String × α)) : List String :=
  m.map Prod.fst

-- Python `==` on values.  Scalars compare structurally (with the Python
-- peculiarity `True == 1`); lists compare pointwise; dictionaries compare as
-- finite maps, ignoring insertion order and dict-subclass tags.
mutual
def vbeq : Value → Value → Bool
  | .vint a, .vint b => a == b
  | .vint a, .vbool b => a == (if b then (1 : Int) else 0)
  | .vbool a, .vint b => (if a then (1 : Int) else 0) == b
  | .vbool a, .vbool b => a == b
  | .vstr a, .vstr b => a == b
  | .vnone, .vnone => true
  | .vlist a, .vlist b => lbeq a b
  | .vdict _ a, .vdict _ b => a.length == b.length && dsub a b
  | .vobj t1 i1, .vobj t2 i2 => t1 == t2 && i1 == i2
  | _, _ => false
def lbeq : List Value → List Value → Bool
  | [], [] => true
  | a :: as, b :: bs => vbeq a b && lbeq as bs
  | _, _ => false
def dsub : Entries → Entries → Bool
  | [], _ => true
  | (k, v) :: rest, b =>
      (match alookup b k with
       | some w => vbeq v w
       | none => false) && dsub rest b
end

/-- Python membership `v in sentinels` (used for `Discard` tuples). -/
def vmem (v : Value) (sentinels : List Value) : Bool :=
  sentinels.any (fun s => vbeq v s)

/-- The runtime type of a value. -/
def Value.pytype : Value → PyTy
  | .vint _ => .int
  | .vbool _ => .bool
  | .vstr _ => .str
  | .vnone => .nonetype
  | .vlist _ => .list
  | .vdict none _ => .dict
  | .vdict (some n) _ => .dictSubclass n
  | .vobj t _ => .other t

/-- Python `issubclass` on the modelled types (every type is a subclass of
itself; a dict subclass is a subclass of `dict`; `bool` is a subclass of `int`). -/
def pyIssubclass (t u : PyTy) : Bool :=
  t == u ||
    match t, u with
    | .dictSubclass _, .dict => true
    | .bool, .int => true
    | _, _ => false

/-- The `__name__` of a type (used in error messages). -/
def PyTy.pyName : PyTy → String
  | .int => "int"
  | .str => "str"
  | .bool => "bool"
  | .list => "list"
  | .dict => "dict"
  | .nonetype => "NoneType"
  | .dictSubclass n => n
  | .other n => n

/-- Python `len(value)`; `none` stands for the `TypeError` raised on unsized
values (a crash outside the validated fragment). -/
def pyLen : Value → Option Nat
  | .vstr s => some s.length
  | .vlist xs => some xs.length
  | .vdict _ es => some es.length
  | _ => none

/-- The payload of a `ValidationError`: either a message string or, for
`Schema.run`, a mapping from field names to nested payloads. -/
inductive ErrDetails where
  | msg (s : String)
  | nested (m : List (String × ErrDetails))

/-- The `errors` dictionary built up by `Schema.run`. -/
abbrev ErrMap := List (String × ErrDetails)

/-- A filter in its well-behaved fragment: `run` either returns a value or
raises a `ValidationError` carrying `ErrDetails`. -/
abbrev Filtr := Value → Except ErrDetails Value

/-- Message of `ValidationError` for a missing required field (core.py:356). -/
def fieldMissingMsg : String := "Field is missing."

/-- Message recorded under a SaveAs/MoveTo target when its chain fails
(core.py:378). -/
def couldntComputeMsg : String := "Couldn\x27t compute field."

/-- Default error message of `Assert` and `In` (core.py:572, 584). -/
def incorrectValueMsg : String := "Incorrect value."

/-- Python `repr` of a plain string key (quoting only; escapes not modelled). -/
def pyRepr (s : String) : String := "\x27" ++ s ++ "\x27"

/-- Message for an unexpected key under the FAIL policy (core.py:336). -/
def unexpectedKeyMsg (k : String) : String :=
  "Unexpected key " ++ pyRepr k ++ "."

/-- Comma-separated type names, as built at core.py:716. -/
def typeNamesStr (types : List PyTy) : String :=
  String.intercalate ", " (types.map PyTy.pyName)

/-- The wrong-type message of `Type.run` (core.py:717-730): the singular
wording with one expected type, the plural wording otherwise. -/
def wrongTypeMsg (types : List PyTy) (wrong : PyTy) : String :=
  if types.length = 1 then
    "Wrong type. Expected " ++ typeNamesStr types ++ ". Got " ++ wrong.pyName ++ " instead."
  else
    "Wrong type. Expected one of " ++ typeNamesStr types ++ ". Got " ++ wrong.pyName ++ " instead."

/-- The `Type` filter (core.py:682-731). -/
structure TypeF where
  types : List PyTy
  subclasses : Bool

/-- Type.run (core.py:709-731): reject when the value's runtime type is not in
the allowed set (`subclasses = False`) or not a subclass of an allowed type
(`subclasses = True`). -/
def TypeF.run (tf : TypeF) (value : Value) : Except ErrDetails Value :=
  let t := value.pytype
  if (tf.subclasses && !(tf.types.any (fun u => pyIssubclass t u)))
      || (!tf.subclasses && !(tf.types.contains t)) then
    .error (.msg (wrongTypeMsg tf.types t))
  else
    .ok value

/-- The `Assert` filter (core.py:570-580); the unary test is modelled with a
boolean-valued predicate. -/
structure AssertF where
  unaryTest : Value → Bool
  errorMessage : String

/-- Assert.run (core.py:576-580). -/
def AssertF.run (a : AssertF) (value : Value) : Except ErrDetails Value :=
  if a.unaryTest value then .ok value else .error (.msg a.errorMessage)

/-- The `Length` filter (core.py:733-800).  The four messages are modelled as
message builders: the source stores format templates and calls `.format` with
the bound at raise time. -/
structure LengthF where
  min : Int
  max : Option Int
  emptyError : String
  tooShortError : Int → String
  tooLongError : Int → String
  exactLengthError : Int → String

/-- Default template of `Length.empty_error` (core.py:769). -/
def defaultEmptyError : String := "This value shouldn\x27t be empty."

/-- Default template of `Length.too_short_error` (core.py:770), formatted. -/
def defaultTooShortError (minLength : Int) : String :=
  "The value is too short. Min length is " ++ toString minLength ++ "."

/-- Default template of `Length.too_long_error` (core.py:771), formatted. -/
def defaultTooLongError (maxLength : Int) : String :=
  "The value is too long. Max length is " ++ toString maxLength ++ "."

/-- Default template of `Length.exact_length_error` (core.py:772), formatted. -/
def defaultExactLengthError (length : Int) : String :=
  "The length should be " ++ toString length ++ "."

/-- A `Length` filter built without custom messages (core.py:774-783). -/
def LengthF.mkDefault (min : Int) (max : Option Int) : LengthF :=
  ⟨min, max, defaultEmptyError, defaultTooShortError, defaultTooLongError,
    defaultExactLengthError⟩

/-- Length.run (core.py:785-800).  On an unsized value the source would crash
with a `TypeError` at `len(value)`; that branch is outside the validated
fragment and returns a marker message here. -/
def LengthF.run (lf : LengthF) (value : Value) : Except ErrDetails Value :=
  match pyLen value with
  | none => .error (.msg "TypeError: object has no length")
  | some l =>
    if (l : Int) < lf.min then
      if l = 0 then
        .error (.msg lf.emptyError)
      else if some lf.min = lf.max then
        .error (.msg (lf.exactLengthError lf.min))
      else
        .error (.msg (lf.tooShortError lf.min))
    else
      match lf.max with
      | some mx =>
          if (l : Int) > mx then
            if lf.min = mx then
              .error (.msg (lf.exactLengthError lf.min))
            else
              .error (.msg (lf.tooLongError mx))
          else
            .ok value
      | none => .ok value

/-- A Python exception value as seen by `Apply`: `isException` tells whether it
is an instance of `Exception` (e.g. `KeyboardInterrupt` is not), `text` is
`str(exc)`. -/
structure PyExc where
  isException : Bool
  text : String

/-- Outcome of `Apply.run`: a returned value, a raised `ValidationError`, or a
propagated exception that the configured catch set did not match. -/
inductive ApplyOutcome where
  | ok (v : Value)
  | validationError (d : ErrDetails)
  | uncaught (e : PyExc)

/-- The `Apply` filter (core.py:553-568).  The wrapped unary function either
returns a value or raises an exception; `catch` models the tuple of exception
classes via an instance test. -/
structure ApplyF where
  unaryFunction : Value → Except PyExc Value
  catchSet : PyExc → Bool
  errorMessage : Option String

/-- The default `catch = (Exception,)` of `Apply.__init__` (core.py:555):
matches exactly the exceptions that are instances of `Exception`. -/
def defaultCatch : PyExc → Bool := fun e => e.isException

/-- Python truthiness of `self.error_message` (core.py:565): `None` and the
empty string are falsy. -/
def truthyMsg : Option String → Bool
  | none => false
  | some s => !s.isEmpty

/-- Apply.run (core.py:561-568). -/
def ApplyF.run (a : ApplyF) (value : Value) : ApplyOutcome :=
  match a.unaryFunction value with
  | .ok r => .ok r
  | .error exc =>
      if a.catchSet exc then
        if truthyMsg a.errorMessage then
          .validationError (.msg (a.errorMessage.getD ""))
        else
          .validationError (.msg exc.text)
      else
        .uncaught exc

/-- The message a default-catch `Apply` puts into the raised `ValidationError`:
the configured message when truthy, otherwise `str(exc)`. -/
def applyErrText (em : Option String) (e : PyExc) : String :=
  match em with
  | some m => if !m.isEmpty then m else e.text
  | none => e.text

/-- A chain default (core.py:86-126): either a constant (`DefaultVal`) or a
unary function of the working document (`DefaultFunc`). -/
inductive DefaultB where
  | val (v : Value)
  | func (f : Entries → Value)

/-- DefaultBase.getvalue (core.py:93-99). -/
def DefaultB.getvalue : DefaultB → Entries → Value
  | .val v, _ => v
  | .func f, dct => f dct

/-- isinstance(default, DefaultFunc) (core.py:352). -/
def DefaultB.isFunc : DefaultB → Bool
  | .val _ => false
  | .func _ => true

/-- A storage instruction (core.py:429-549): Save, SaveAs(name), MoveTo(name)
or Delete. -/
inductive StorageI where
  | save
  | saveAs (name : String)
  | moveTo (name : String)
  | delete

/-- A parsed chain (core.py:172-227).  `field = none` is a whole-document
chain; `discard` is the `Discard` sentinel tuple; `opt` the `Optional` flag. -/
structure Chain where
  field : Option String
  discard : List Value
  opt : Bool
  default : Option DefaultB
  filters : List Filtr
  storage : Option StorageI

/-- The `unexpected_keys` policy of a schema (core.py:313-315). -/
inductive UKPolicy where
  | fail
  | keep
  | delete
deriving DecidableEq

/-- A schema: an ordered list of chains plus the unexpected-keys policy
(core.py:317-325). -/
structure Schema where
  chains : List Chain
  policy : UKPolicy

/-- Schema.expected_fields (core.py:321-325): the set of all chain field
names, modelled by the list of field names (only membership is used). -/
def Schema.expectedFields (s : Schema) : List String :=
  s.chains.filterMap (fun c => c.field)

/-- The filter loop of `Schema.run` (core.py:366-375): apply the filters left
to right, stopping at the first raised `ValidationError`. -/
def runFilters : List Filtr → Value → Except ErrDetails Value
  | [], v => .ok v
  | f :: fs, v =>
      match f v with
      | .ok v1 => runFilters fs v1
      | .error d => .error d

/-- The key under which a chain's filter failure is recorded (core.py:370-373):
the field name, or the reserved key for whole-document chains. -/
def errKeyOf (c : Chain) : String :=
  match c.field with
  | some f => f
  | none => "*"

/-- StorageInstruction.execute as called at core.py:385 with
`chain.field[0] if chain.field else None`.  `Save` with no field never
reaches `execute` (core.py:382-383); `MoveTo`/`Delete` with no field would
`del dct[None]`, which raises a swallowed `KeyError` since no string key can
be `None` (core.py:500-503, 544-547). -/
def execStorage (si : StorageI) (dct : Entries) (field : Option String) (value : Value) :
    Entries :=
  match si, field with
  | .save, some f => aset dct f value
  | .save, none => dct
  | .saveAs n, _ => aset dct n value
  | .moveTo n, some f => adel (aset dct n value) f
  | .moveTo n, none => aset dct n value
  | .delete, some f => adel dct f
  | .delete, none => dct

/-- The tail of one chain iteration of `Schema.run` once `value` is known
(core.py:364-385): run the filters; on failure record the error under the
chain's key and, for SaveAs/MoveTo, the synthetic error under the target name;
on success apply the storage instruction (a whole-document `Save` replaces the
working copy — when the filters of such a chain return a non-dict, the source
would store it and crash at the next field access, which is outside the
validated fragment, so the replacement is skipped here). -/
def afterValue (c : Chain) (dct : Entries) (errs : ErrMap) (value : Value) :
    Entries × ErrMap :=
  match runFilters c.filters value with
  | .error d =>
      let errs1 := aset errs (errKeyOf c) d
      let errs2 :=
        match c.storage with
        | some (.saveAs n) => aset errs1 n (.msg couldntComputeMsg)
        | some (.moveTo n) => aset errs1 n (.msg couldntComputeMsg)
        | _ => errs1
      (dct, errs2)
  | .ok value1 =>
      match c.storage with
      | none => (dct, errs)
      | some si =>
          match c.field, si with
          | none, .save =>
              match value1 with
              | .vdict _ es => (es, errs)
              | _ => (dct, errs)
          | fopt, _ => (execStorage si dct fopt value1, errs)

/-- The discard step of one chain iteration (core.py:341-345):
`if field in dct and dct[field] in chain.discard: del dct[field]`. -/
def discardStep (c : Chain) (dct : Entries) (field : String) : Entries :=
  match alookup dct field with
  | some v => if vmem v c.discard then adel dct field else dct
  | none => dct

/-- One iteration of the chain loop of `Schema.run` (core.py:339-385):
discard handling, field presence, Optional, Default (function-valued defaults
are skipped once errors exist), the missing-field error, the whole-document
skip, then filters and storage via `afterValue`. -/
def processChain (c : Chain) (dct : Entries) (errs : ErrMap) : Entries × ErrMap :=
  match c.field with
  | some field =>
      let dct1 := discardStep c dct field
      match alookup dct1 field with
      | some value => afterValue c dct1 errs value
      | none =>
          if c.opt then (dct1, errs)
          else
            match c.default with
            | some df =>
                if !errs.isEmpty && df.isFunc then (dct1, errs)
                else
                  let value := df.getvalue dct1
                  afterValue c (aset dct1 field value) errs value
            | none => (dct1, aset errs field (.msg fieldMissingMsg))
  | none =>
      if !errs.isEmpty then (dct, errs)
      else afterValue c dct errs (.vdict none dct)

/-- One step of the unexpected-keys pass (core.py:332-337): an unknown key
gets an error under the FAIL policy and is removed from the working copy. -/
def scrubKey (s : Schema) (dct : Entries) (errs : ErrMap) (key : String) :
    Entries × ErrMap :=
  if key ∈ s.expectedFields then (dct, errs)
  else
    let errs1 :=
      if s.policy = .fail then aset errs key (.msg (unexpectedKeyMsg key)) else errs
    (adel dct key, errs1)

/-- The unexpected-keys pass: iterate the keys of the caller's input. -/
def scrubKeys (s : Schema) : List String → Entries → ErrMap → Entries × ErrMap
  | [], dct, errs => (dct, errs)
  | k :: rest, dct, errs =>
      let acc := scrubKey s dct errs k
      scrubKeys s rest acc.1 acc.2

/-- The chain loop of `Schema.run` (core.py:339). -/
def chainsRun (chains : List Chain) (acc : Entries × ErrMap) : Entries × ErrMap :=
  match chains with
  | [] => acc
  | c :: rest => chainsRun rest (processChain c acc.1 acc.2)

/-- The mutable state of one `Schema.run` call: the caller's mapping `dict_`
and the working copy `dct` with the `errors` dictionary. -/
structure RState where
  input : Entries
  dct : Entries
  errors : ErrMap

/-- The body of `Schema.run` after the input type check (core.py:329-385),
with the caller's `dict_` threaded through the state: the unexpected-keys pass
reads `dict_` (`for key in dict_`, core.py:333) and every mutation targets the
working copy or the errors dictionary. -/
def Schema.runSt (s : Schema) (st : RState) : RState :=
  let acc1 :=
    if s.policy = .keep then (st.dct, st.errors)
    else scrubKeys s (akeys st.input) st.dct st.errors
  let acc2 := chainsRun s.chains acc1
  ⟨st.input, acc2.1, acc2.2⟩

/-- Schema.run (core.py:327-389): check the input is a dict instance via
`Type(dict, subclasses=True)`, shallow-copy it into the working state, run the
passes, then raise the aggregated errors or return the working copy. -/
def Schema.run (s : Schema) (input : Value) : Except ErrDetails Value :=
  match (TypeF.mk [PyTy.dict] true).run input with
  | .error d => .error d
  | .ok _ =>
      match input with
      | .vdict _ es =>
          let st := s.runSt ⟨es, es, []⟩
          if st.errors.isEmpty then .ok (.vdict none st.dct)
          else .error (.nested st.errors)
      | _ => .error (.msg "unreachable: Type(dict, subclasses=True) passed a non-dict")

/-- Schema.validate (core.py:392-427): `Filter.validate` wraps `run` with
message translation, which is the identity for the default language
(`settings.default_lang = "en"`, core.py:57-76), so `validate` coincides with
`run` here. -/
def Schema.validate (s : Schema) (input : Value) : Except ErrDetails Value :=
  s.run input

/-- A chain that cannot synthesize field `f` into the working copy nor write
an error entry for `f` other than the missing-field message: it has no default
when bound to `f`, no SaveAs/MoveTo targeting `f`, and is not a
whole-document Save (which replaces the working copy wholesale). -/
def ChainSafe (f : String) (c : Chain) : Prop :=
  (c.field = some f → c.default = none)
  ∧ c.storage ≠ some (.saveAs f)
  ∧ c.storage ≠ some (.moveTo f)
  ∧ (c.field = none → c.storage ≠ some .save)

/-- A chain with no storage instruction, no default and no discard set. -/
def PlainChain (c : Chain) : Prop :=
  c.discard = [] ∧ c.default = none ∧ c.storage = none

/-- A chain requiring field "a" with no filters. -/
def chainReqA : Chain := ⟨some "a", [], false, none, [], none⟩

/-- A chain requiring field "b" with no filters. -/
def chainReqB : Chain := ⟨some "b", [], false, none, [], none⟩

/-- Schema requiring the two fields "a" and "b". -/
def schemaTwoRequired : Schema := ⟨[chainReqA, chainReqB], .fail⟩

/-- Schema requiring only the field "a". -/
def schemaOneRequired : Schema := ⟨[chainReqA], .fail⟩

/-- Schema with one optional field "address" discarding the empty string,
from the `Discard` docstring (core.py:143-151). -/
def schemaDiscardOpt : Schema :=
  ⟨[⟨some "address", [.vstr ""], true, none, [], none⟩], .fail⟩

/-- A filter that always fails: `Assert(lambda v: False)`. -/
def failFilter : Filtr := AssertF.run ⟨fun _ => false, incorrectValueMsg⟩

/-- Schema whose single chain validates "x" with an always-failing filter and
stores the result back under the same name "x" via SaveAs. -/
def schemaSaveAsSelf : Schema :=
  ⟨[⟨some "x", [], false, none, [failFilter], some (.saveAs "x")⟩], .fail⟩

/-- A chain on "x" with an always-failing filter and SaveAs to "y". -/
def chainSaveAsOther : Chain :=
  ⟨some "x", [], false, none, [failFilter], some (.saveAs "y")⟩

/-- DefaultFunc computing field "a" from the current value of field "z":
`Default(lambda d: d.get("z", 0))`. -/
def defaultFromZ : Entries → Value := fun dct => (alookup dct "z").getD (.vint 0)

/-- A storage-free schema that is not idempotent: "a" defaults to the current
value of "z", a second chain discards "a" when it equals 5, and "z" itself
discards 5 and defaults to 7. -/
def schemaNotIdempotent : Schema :=
  ⟨[⟨some "a", [], false, some (.func defaultFromZ), [], none⟩,
    ⟨some "a", [.vint 5], true, none, [], none⟩,
    ⟨some "z", [.vint 5], false, some (.val (.vint 7)), [], none⟩], .fail⟩

/-- A whole-document chain with no filters. -/
def chainWholeDoc : Chain := ⟨none, [], false, none, [], none⟩

/-- A chain on "b" with a function-valued default. -/
def chainDefaultFuncB : Chain :=
  ⟨some "b", [], false, some (.func (fun _ => .vint 1)), [], none⟩

/-- A chain on "b" with a constant default 9. -/
def chainDefaultValB : Chain :=
  ⟨some "b", [], false, some (.val (.vint 9)), [], none⟩

/-- A wrapped function that always raises an `Exception` instance with text
"boom". -/
def boomFn : Value → Except PyExc Value := fun _ => .error ⟨true, "boom"⟩

/-! Helper lemmas about the dictionary operations. -/

theorem alookup_aset_self {α : Type} (m : List (String × α)) (k : String) (v : α) :
    alookup (aset m k v) k = some v := by
  induction m with
  | nil => simp [aset, alookup]
  | cons hd tl ih =>
      obtain ⟨k1, v1⟩ := hd
      by_cases h : k1 = k
      · simp [aset, alookup, h]
      · simp [aset, alookup, h, ih]

theorem alookup_aset_ne {α : Type} (m : List (String × α)) {k1 k2 : String} (v : α)
    (h : k1 ≠ k2) : alookup (aset m k1 v) k2 = alookup m k2 := by
  induction m with
  | nil => simp [aset, alookup, h]
  | cons hd tl ih =>
      obtain ⟨k0, v0⟩ := hd
      by_cases h0 : k0 = k1
      · subst h0
        simp [aset, alookup, h]
      · simp [aset, alookup, h0, ih]

theorem alookup_adel {α : Type} (m : List (String × α)) (k1 k2 : String) :
    alookup (adel m k1) k2 = if k1 = k2 then none else alookup m k2 := by
  induction m with
  | nil => simp [adel, alookup]
  | cons hd tl ih =>
      obtain ⟨k0, v0⟩ := hd
      by_cases h0 : k0 = k1
      · subst h0
        by_cases h2 : k0 = k2
        · subst h2
          simp [adel, alookup, ih]
        · simp [adel, alookup, h2, ih]
      · by_cases h2 : k0 = k2
        · subst h2
          have : ¬ k1 = k0 := fun h => h0 h.symm
          simp [adel, alookup, h0, this]
        · simp [adel, alookup, h0, h2, ih]

theorem aset_ne_nil {α : Type} (m : List (String × α)) (k : String) (v : α) :
    aset m k v ≠ [] := by
  cases m with
  | nil => simp [aset]
  | cons hd tl =>
      obtain ⟨k1, v1⟩ := hd
      by_cases h : k1 = k <;> simp [aset, h]

theorem alookup_eq_none_iff {α : Type} (m : List (String × α)) (k : String) :
    alookup m k = none ↔ k ∉ akeys m := by
  induction m with
  | nil => simp [alookup, akeys]
  | cons hd tl ih =>
      obtain ⟨k1, v1⟩ := hd
      by_cases h : k1 = k
      · subst h
        simp [alookup, akeys]
      · simp only [alookup, akeys, List.map_cons, List.mem_cons, h, if_false]
        simp only [akeys] at ih
        constructor
        · intro hnone hmem
          rcases hmem with hmem | hmem
          · exact h hmem.symm
          · exact (ih.mp hnone) hmem
        · intro hmem
          exact ih.mpr (fun hk => hmem (Or.inr hk))

theorem alookup_isEmpty_false {α : Type} {m : List (String × α)} {k : String} {d : α}
    (h : alookup m k = some d) : m.isEmpty = false := by
  cases m with
  | nil => simp [alookup] at h
  | cons hd tl => simp [List.isEmpty]

/-! Helper lemmas about the type check and the chain step. -/

theorem typeCheck_vdict (sub : Option String) (es : Entries) :
    (TypeF.mk [PyTy.dict] true).run (.vdict sub es) = .ok (.vdict sub es) := by
  cases sub <;> rfl

theorem run_not_dict (s : Schema) (v : Value)
    (h : pyIssubclass v.pytype PyTy.dict = false) :
    s.run v = .error (.msg (wrongTypeMsg [PyTy.dict] v.pytype)) := by
  have htc : (TypeF.mk [PyTy.dict] true).run v =
      .error (.msg (wrongTypeMsg [PyTy.dict] v.pytype)) := by
    simp [TypeF.run, h]
  cases v with
  | vdict sub es =>
      cases sub <;> simp [pyIssubclass, Value.pytype] at h
  | vint n => simp [Schema.run, htc]
  | vbool b => simp [Schema.run, htc]
  | vstr s1 => simp [Schema.run, htc]
  | vnone => simp [Schema.run, htc]
  | vlist xs => simp [Schema.run, htc]
  | vobj t i => simp [Schema.run, htc]

theorem discardStep_absent (c : Chain) (dct : Entries) (g f : String)
    (habs : alookup dct f = none) :
    alookup (discardStep c dct g) f = none := by
  unfold discardStep
  cases hv : alookup dct g with
  | none => exact habs
  | some v =>
      by_cases hm : vmem v c.discard = true
      · simp [hm, alookup_adel, habs]
      · simp at hm
        simp [hm, habs]

theorem discardStep_of_absent (c : Chain) (dct : Entries) (f : String)
    (habs : alookup dct f = none) : discardStep c dct f = dct := by
  unfold discardStep
  simp [habs]

theorem discardStep_of_no_discard (c : Chain) (dct : Entries) (f : String)
    (h : c.discard = []) : discardStep c dct f = dct := by
  unfold discardStep
  cases hv : alookup dct f with
  | none => rfl
  | some v => simp [vmem, h]

theorem afterValue_fst_no_storage (c : Chain) (dct : Entries) (errs : ErrMap)
    (value : Value) (h : c.storage = none) :
    (afterValue c dct errs value).1 = dct := by
  unfold afterValue
  cases hrf : runFilters c.filters value with
  | error d => simp [h]
  | ok v1 => simp [h]

theorem afterValue_errs_of_ok (c : Chain) (dct : Entries) (errs : ErrMap)
    (value v1 : Value) (h : runFilters c.filters value = .ok v1) :
    (afterValue c dct errs value).2 = errs := by
  unfold afterValue
  rw [h]
  cases hst : c.storage with
  | none => rfl
  | some si =>
      cases hf : c.field with
      | none =>
          cases si with
          | save => cases v1 <;> rfl
          | saveAs n => rfl
          | moveTo n => rfl
          | delete => rfl
      | some g => cases si <;> rfl

theorem afterValue_errs_ne_nil (c : Chain) (dct : Entries) (errs : ErrMap)
    (value : Value) (h : errs ≠ []) :
    (afterValue c dct errs value).2 ≠ [] := by
  unfold afterValue
  cases hrf : runFilters c.filters value with
  | error d =>
      cases hst : c.storage with
      | none => simp [aset_ne_nil]
      | some si => cases si <;> simp [aset_ne_nil]
  | ok v1 =>
      cases hst : c.storage with
      | none => simpa using h
      | some si =>
          cases hf : c.field with
          | none =>
              cases si with
              | save => cases v1 <;> simpa using h
              | saveAs n => simpa using h
              | moveTo n => simpa using h
              | delete => simpa using h
          | some g => cases si <;> simpa using h

theorem processChain_some (c : Chain) (dct : Entries) (errs : ErrMap) (g : String)
    (hf : c.field = some g) :
    processChain c dct errs =
      match alookup (discardStep c dct g) g with
      | some value => afterValue c (discardStep c dct g) errs value
      | none =>
          if c.opt then (discardStep c dct g, errs)
          else
            match c.default with
            | some df =>
                if !errs.isEmpty && df.isFunc then (discardStep c dct g, errs)
                else
                  afterValue c
                    (aset (discardStep c dct g) g (df.getvalue (discardStep c dct g)))
                    errs (df.getvalue (discardStep c dct g))
            | none => (discardStep c dct g, aset errs g (.msg fieldMissingMsg)) := by
  unfold processChain
  rw [hf]

theorem processChain_none (c : Chain) (dct : Entries) (errs : ErrMap)
    (hf : c.field = none) :
    processChain c dct errs =
      if !errs.isEmpty then (dct, errs)
      else afterValue c dct errs (.vdict none dct) := by
  unfold processChain
  rw [hf]

theorem afterValue_absent_field (c : Chain) (dct : Entries) (errs : ErrMap)
    (value : Value) (f g : String)
    (hg : c.field = some g) (hgf : g ≠ f) (habs : alookup dct f = none)
    (hsA : c.storage ≠ some (.saveAs f)) (hsM : c.storage ≠ some (.moveTo f)) :
    alookup (afterValue c dct errs value).1 f = none := by
  unfold afterValue
  cases hrf : runFilters c.filters value with
  | error d => simpa using habs
  | ok v1 =>
      cases hst : c.storage with
      | none => simpa using habs
      | some si =>
          cases si with
          | save =>
              simp [hg, execStorage, alookup_aset_ne _ _ hgf, habs]
          | saveAs n =>
              have hnf : n ≠ f := by
                intro h
                exact hsA (by rw [hst, h])
              simp [hg, execStorage, alookup_aset_ne _ _ hnf, habs]
          | moveTo n =>
              have hnf : n ≠ f := by
                intro h
                exact hsM (by rw [hst, h])
              simp [hg, execStorage, alookup_adel, hgf,
                alookup_aset_ne _ _ hnf, habs]
          | delete =>
              simp only [hg, execStorage]
              rw [alookup_adel]
              simp [habs]

theorem afterValue_absent_wholedoc (c : Chain) (dct : Entries) (errs : ErrMap)
    (value : Value) (f : String)
    (hg : c.field = none) (habs : alookup dct f = none)
    (hsS : c.storage ≠ some .save)
    (hsA : c.storage ≠ some (.saveAs f)) (hsM : c.storage ≠ some (.moveTo f)) :
    alookup (afterValue c dct errs value).1 f = none := by
  unfold afterValue
  cases hrf : runFilters c.filters value with
  | error d => simpa using habs
  | ok v1 =>
      cases hst : c.storage with
      | none => simpa using habs
      | some si =>
          cases si with
          | save => exact absurd hst hsS
          | saveAs n =>
              have hnf : n ≠ f := by
                intro h
                exact hsA (by rw [hst, h])
              simp [hg, execStorage, alookup_aset_ne _ _ hnf, habs]
          | moveTo n =>
              have hnf : n ≠ f := by
                intro h
                exact hsM (by rw [hst, h])
              simp [hg, execStorage, alookup_aset_ne _ _ hnf, habs]
          | delete =>
              simp [hg, execStorage, habs]

theorem processChain_absent (c : Chain) (dct : Entries) (errs : ErrMap)
    (f : String) (hs : ChainSafe f c) (habs : alookup dct f = none) :
    alookup (processChain c dct errs).1 f = none := by
  obtain ⟨hs1, hsA, hsM, hsW⟩ := hs
  cases hfld : c.field with
  | none =>
      rw [processChain_none c dct errs hfld]
      by_cases he : errs.isEmpty
      · simp [he]
        exact afterValue_absent_wholedoc c dct errs _ f hfld habs (hsW hfld) hsA hsM
      · simp [he, habs]
  | some g =>
      rw [processChain_some c dct errs g hfld]
      by_cases hgf : g = f
      · subst hgf
        rw [discardStep_of_absent c dct g habs]
        simp only [habs]
        by_cases ho : c.opt
        · simp [ho, habs]
        · have hd : c.default = none := hs1 hfld
          simp [ho, hd, habs]
      · have habs1 : alookup (discardStep c dct g) f = none :=
          discardStep_absent c dct g f habs
        cases hv : alookup (discardStep c dct g) g with
        | some value =>
            simp only [hv]
            exact afterValue_absent_field c _ errs value f g hfld hgf habs1 hsA hsM
        | none =>
            simp only [hv]
            by_cases ho : c.opt
            · simp [ho, habs1]
            · cases hd : c.default with
              | none => simp [ho, hd, habs1]
              | some df =>
                  by_cases hsk : (!errs.isEmpty && df.isFunc) = true
                  · simp [ho, hd, hsk, habs1]
                  · have habs2 :
                        alookup (aset (discardStep c dct g) g
                          (df.getvalue (discardStep c dct g))) f = none := by
                      rw [alookup_aset_ne _ _ hgf]
                      exact habs1
                    simp only [ho, hd, hsk, if_neg ho, if_false, Bool.false_eq_true]
                    exact afterValue_absent_field c _ errs _ f g hfld hgf habs2 hsA hsM

theorem afterValue_err_preserved (c : Chain) (dct : Entries) (errs : ErrMap)
    (value : Value) (f : String) (hkey : errKeyOf c ≠ f)
    (hsA : c.storage ≠ some (.saveAs f)) (hsM : c.storage ≠ some (.moveTo f)) :
    alookup (afterValue c dct errs value).2 f = alookup errs f := by
  unfold afterValue
  cases hrf : runFilters c.filters value with
  | error d =>
      cases hst : c.storage with
      | none => simp [alookup_aset_ne _ _ hkey]
      | some si =>
          cases si with
          | save => simp [alookup_aset_ne _ _ hkey]
          | delete => simp [alookup_aset_ne _ _ hkey]
          | saveAs n =>
              have hnf : n ≠ f := by
                intro h
                exact hsA (by rw [hst, h])
              simp [alookup_aset_ne _ _ hnf, alookup_aset_ne _ _ hkey]
          | moveTo n =>
              have hnf : n ≠ f := by
                intro h
                exact hsM (by rw [hst, h])
              simp [alookup_aset_ne _ _ hnf, alookup_aset_ne _ _ hkey]
  | ok v1 =>
      cases hst : c.storage with
      | none => rfl
      | some si =>
          cases hf : c.field with
          | none =>
              cases si with
              | save => cases v1 <;> rfl
              | saveAs n => rfl
              | moveTo n => rfl
              | delete => rfl
          | some g => cases si <;> rfl

theorem processChain_err_missing (c : Chain) (dct : Entries) (errs : ErrMap)
    (f : String) (hs : ChainSafe f c) (habs : alookup dct f = none)
    (hq : alookup errs f = some (.msg fieldMissingMsg)) :
    alookup (processChain c dct errs).2 f = some (.msg fieldMissingMsg) := by
  obtain ⟨hs1, hsA, hsM, hsW⟩ := hs
  have hne : errs ≠ [] := by
    intro h
    rw [h] at hq
    simp [alookup] at hq
  have hie : errs.isEmpty = false := by
    cases errs with
    | nil => exact absurd rfl hne
    | cons a l => rfl
  cases hfld : c.field with
  | none =>
      rw [processChain_none c dct errs hfld]
      simp [hie, hq]
  | some g =>
      rw [processChain_some c dct errs g hfld]
      by_cases hgf : g = f
      · subst hgf
        rw [discardStep_of_absent c dct g habs]
        simp only [habs]
        by_cases ho : c.opt
        · simp [ho, hq]
        · have hd : c.default = none := hs1 hfld
          simp [ho, hd, alookup_aset_self, hq]
      · have hkey : errKeyOf c ≠ f := by
          simp [errKeyOf, hfld]
          exact hgf
        cases hv : alookup (discardStep c dct g) g with
        | some value =>
            simp only [hv]
            rw [afterValue_err_preserved c _ errs value f hkey hsA hsM]
            exact hq
        | none =>
            simp only [hv]
            by_cases ho : c.opt
            · simp [ho, hq]
            · cases hd : c.default with
              | none =>
                  simp [ho, hd, alookup_aset_ne _ _ hgf, hq]
              | some df =>
                  by_cases hsk : (!errs.isEmpty && df.isFunc) = true
                  · simp [ho, hd, hsk, hq]
                  · simp only [ho, hd, hsk, if_neg ho, if_false, Bool.false_eq_true]
                    rw [afterValue_err_preserved c _ errs _ f hkey hsA hsM]
                    exact hq

theorem processChain_missing_rec (c : Chain) (dct : Entries) (errs : ErrMap)
    (f : String) (hf : c.field = some f) (hopt : c.opt = false)
    (hdef : c.default = none) (habs : alookup dct f = none) :
    processChain c dct errs = (dct, aset errs f (.msg fieldMissingMsg)) := by
  rw [processChain_some c dct errs f hf]
  rw [discardStep_of_absent c dct f habs]
  simp [habs, hopt, hdef]

theorem chainsRun_append (l1 l2 : List Chain) (acc : Entries × ErrMap) :
    chainsRun (l1 ++ l2) acc = chainsRun l2 (chainsRun l1 acc) := by
  induction l1 generalizing acc with
  | nil => rfl
  | cons c rest ih =>
      simp only [List.cons_append, chainsRun]
      exact ih _

theorem chainsRun_absent (cs : List Chain) (f : String)
    (hsafe : ∀ c ∈ cs, ChainSafe f c) :
    ∀ acc : Entries × ErrMap, alookup acc.1 f = none →
      alookup (chainsRun cs acc).1 f = none := by
  induction cs with
  | nil =>
      intro acc h
      simpa [chainsRun] using h
  | cons c rest ih =>
      intro acc h
      have hc : ChainSafe f c := hsafe c (by simp)
      have hrest : ∀ c1 ∈ rest, ChainSafe f c1 := fun c1 h1 => hsafe c1 (by simp [h1])
      simp only [chainsRun]
      exact ih hrest _ (processChain_absent c acc.1 acc.2 f hc h)

theorem chainsRun_missing (cs : List Chain) (f : String)
    (hsafe : ∀ c ∈ cs, ChainSafe f c) :
    ∀ acc : Entries × ErrMap, alookup acc.1 f = none →
      alookup acc.2 f = some (.msg fieldMissingMsg) →
      alookup (chainsRun cs acc).2 f = some (.msg fieldMissingMsg) := by
  induction cs with
  | nil =>
      intro acc h hq
      simpa [chainsRun] using hq
  | cons c rest ih =>
      intro acc h hq
      have hc : ChainSafe f c := hsafe c (by simp)
      have hrest : ∀ c1 ∈ rest, ChainSafe f c1 := fun c1 h1 => hsafe c1 (by simp [h1])
      simp only [chainsRun]
      exact ih hrest _ (processChain_absent c acc.1 acc.2 f hc h)
        (processChain_err_missing c acc.1 acc.2 f hc h hq)

theorem scrubKeys_absent (s : Schema) (keys : List String) (f : String) :
    ∀ dct errs, alookup dct f = none →
      alookup (scrubKeys s keys dct errs).1 f = none := by
  induction keys with
  | nil =>
      intro dct errs h
      simpa [scrubKeys] using h
  | cons k rest ih =>
      intro dct errs h
      simp only [scrubKeys]
      by_cases hk : k ∈ s.expectedFields
      · simp only [scrubKey, hk, if_pos]
        exact ih dct errs h
      · simp only [scrubKey, hk, if_neg, ite_false]
        apply ih
        rw [alookup_adel]
        simp [h]

theorem processChain_fst_plain (c : Chain) (dct : Entries) (errs : ErrMap)
    (h : PlainChain c) : (processChain c dct errs).1 = dct := by
  obtain ⟨hdisc, hdef, hstore⟩ := h
  cases hfld : c.field with
  | none =>
      rw [processChain_none c dct errs hfld]
      by_cases he : errs.isEmpty
      · simp [he, afterValue_fst_no_storage c dct errs _ hstore]
      · simp [he]
  | some g =>
      rw [processChain_some c dct errs g hfld]
      rw [discardStep_of_no_discard c dct g hdisc]
      cases hv : alookup dct g with
      | some value =>
          simp only [hv]
          exact afterValue_fst_no_storage c dct errs value hstore
      | none =>
          simp only [hv]
          by_cases ho : c.opt
          · simp [ho]
          · simp [ho, hdef]

theorem processChain_errs_ne_nil (c : Chain) (dct : Entries) (errs : ErrMap)
    (h : errs ≠ []) : (processChain c dct errs).2 ≠ [] := by
  cases hfld : c.field with
  | none =>
      rw [processChain_none c dct errs hfld]
      by_cases he : errs.isEmpty
      · simp only [he, Bool.not_false, if_false]
        exact afterValue_errs_ne_nil c dct errs _ h
      · simpa [he] using h
  | some g =>
      rw [processChain_some c dct errs g hfld]
      cases hv : alookup (discardStep c dct g) g with
      | some value =>
          simp only [hv]
          exact afterValue_errs_ne_nil c _ errs value h
      | none =>
          simp only [hv]
          by_cases ho : c.opt
          · simpa [ho] using h
          · cases hd : c.default with
            | none => simp [ho, hd, aset_ne_nil]
            | some df =>
                by_cases hsk : (!errs.isEmpty && df.isFunc) = true
                · simpa [ho, hd, hsk] using h
                · simp only [ho, hd, hsk, if_neg ho, if_false, Bool.false_eq_true]
                  exact afterValue_errs_ne_nil c _ errs _ h

theorem chainsRun_errs_ne_nil (cs : List Chain) :
    ∀ acc : Entries × ErrMap, acc.2 ≠ [] → (chainsRun cs acc).2 ≠ [] := by
  induction cs with
  | nil =>
      intro acc h
      simpa [chainsRun] using h
  | cons c rest ih =>
      intro acc h
      simp only [chainsRun]
      exact ih _ (processChain_errs_ne_nil c acc.1 acc.2 h)

theorem chainsRun_fst_plain (cs : List Chain) (hp : ∀ c ∈ cs, PlainChain c) :
    ∀ acc : Entries × ErrMap, (chainsRun cs acc).1 = acc.1 := by
  induction cs with
  | nil =>
      intro acc
      rfl
  | cons c rest ih =>
      intro acc
      have hc : PlainChain c := hp c (by simp)
      have hrest : ∀ c1 ∈ rest, PlainChain c1 := fun c1 h1 => hp c1 (by simp [h1])
      simp only [chainsRun]
      rw [ih hrest _]
      exact processChain_fst_plain c acc.1 acc.2 hc

theorem scrubKey_errs_ne_nil (s : Schema) (dct : Entries) (errs : ErrMap)
    (key : String) (h : errs ≠ []) : (scrubKey s dct errs key).2 ≠ [] := by
  unfold scrubKey
  by_cases hk : key ∈ s.expectedFields
  · simpa [hk] using h
  · by_cases hp : s.policy = .fail
    · simp [hk, hp, aset_ne_nil]
    · simpa [hk, hp] using h

theorem scrubKeys_errs_ne_nil (s : Schema) (keys : List String) :
    ∀ dct errs, errs ≠ [] → (scrubKeys s keys dct errs).2 ≠ [] := by
  induction keys with
  | nil =>
      intro dct errs h
      simpa [scrubKeys] using h
  | cons k rest ih =>
      intro dct errs h
      simp only [scrubKeys]
      exact ih _ _ (scrubKey_errs_ne_nil s dct errs k h)

theorem scrubKeys_id_of_expected (s : Schema) (keys : List String)
    (h : ∀ k ∈ keys, k ∈ s.expectedFields) :
    ∀ dct errs, scrubKeys s keys dct errs = (dct, errs) := by
  induction keys with
  | nil =>
      intro dct errs
      rfl
  | cons k rest ih =>
      intro dct errs
      have hk : k ∈ s.expectedFields := h k (by simp)
      have hrest : ∀ k1 ∈ rest, k1 ∈ s.expectedFields := fun k1 h1 => h k1 (by simp [h1])
      simp only [scrubKeys, scrubKey, hk, if_pos]
      exact ih hrest dct errs

theorem scrubKeys_fail_clean (s : Schema) (keys : List String)
    (hp : s.policy = .fail) :
    ∀ dct, (scrubKeys s keys dct []).2 = [] → ∀ k ∈ keys, k ∈ s.expectedFields := by
  induction keys with
  | nil =>
      intro dct h k hk
      simp at hk
  | cons k1 rest ih =>
      intro dct h k hk
      by_cases hk1 : k1 ∈ s.expectedFields
      · simp only [scrubKeys, scrubKey, hk1, if_pos] at h
        rcases List.mem_cons.mp hk with heq | hmem
        · rw [heq]
          exact hk1
        · exact ih dct h k hmem
      · exfalso
        simp only [scrubKeys, scrubKey, hk1, hp, if_neg, ite_false, if_pos] at h
        have hne : aset ([] : ErrMap) k1 (.msg (unexpectedKeyMsg k1)) ≠ [] :=
          aset_ne_nil _ _ _
        exact scrubKeys_errs_ne_nil s rest _ _ hne h

theorem scrubKeys_unexpected_none (s : Schema) (keys : List String) (k : String)
    (hk : k ∉ s.expectedFields) :
    ∀ dct errs, (k ∈ keys ∨ alookup dct k = none) →
      alookup (scrubKeys s keys dct errs).1 k = none := by
  induction keys with
  | nil =>
      intro dct errs h
      rcases h with h | h
      · simp at h
      · simpa [scrubKeys] using h
  | cons k1 rest ih =>
      intro dct errs h
      simp only [scrubKeys]
      by_cases hk1 : k1 ∈ s.expectedFields
      · simp only [scrubKey, hk1, if_pos]
        apply ih
        rcases h with h | h
        · rcases List.mem_cons.mp h with heq | hmem
          · rw [heq] at hk
            exact absurd hk1 hk
          · exact Or.inl hmem
        · exact Or.inr h
      · simp only [scrubKey, hk1, if_neg, ite_false]
        apply ih
        rcases h with h | h
        · rcases List.mem_cons.mp h with heq | hmem
          · subst heq
            refine Or.inr ?_
            rw [alookup_adel]
            simp
          · exact Or.inl hmem
        · refine Or.inr ?_
          rw [alookup_adel]
          simp [h]

/-! Claim theorems. -/

/-- C7: Schema.validate never mutates the caller's input mapping.  In the
stateful rendering `runSt` of core.py:329-389 the caller's `dict_` is part of
the run state; the chain loop never references it (`processChain` acts on the
working copy and the errors dictionary only) and the unexpected-keys pass only
iterates its keys, so the state's input component is returned unchanged, on
success and on failure alike: every storage instruction, default, discard and
unexpected-key deletion targets the working copy `dct = dict_.copy()`
(core.py:329) that becomes the return value. -/
theorem c7_input_never_mutated (s : Schema) (st : RState) :
    (s.runSt st).input = st.input := rfl

/-- C5: a whole-document chain (no bound field name) is skipped entirely by
`Schema.run` whenever at least one error has already been recorded in the same
run (core.py:358-362): the state is returned unchanged, so none of its filters
run and its storage instruction is not applied. -/
theorem c5_wholedoc_skipped_on_errors (c : Chain) (dct : Entries) (errs : ErrMap)
    (hf : c.field = none) (herr : errs ≠ []) :
    processChain c dct errs = (dct, errs) := by
  rw [processChain_none c dct errs hf]
  have hie : errs.isEmpty = false := by
    cases errs with
    | nil => exact absurd rfl herr
    | cons a l => rfl
  simp [hie]

/-- Witness for C5 at a concrete chain and state. -/
theorem c5_witness :
    processChain chainWholeDoc [] [("x", .msg "e")] = ([], [("x", .msg "e")]) :=
  c5_wholedoc_skipped_on_errors chainWholeDoc [] [("x", .msg "e")] rfl (by simp)

/-- C4: when a chain's field is absent and earlier errors exist
(core.py:349-357), a function-valued default is skipped entirely — the state
is unchanged, so the field is neither defaulted nor reported missing by that
chain — while a constant default is applied: the field is bound to the
constant in the working copy (stated for chains without a storage instruction,
which could later overwrite or delete the binding). -/
theorem c4_default_skip_only_for_functions (c : Chain) (dct : Entries)
    (errs : ErrMap) (f : String) (hf : c.field = some f)
    (habs : alookup dct f = none) (hopt : c.opt = false) (herr : errs ≠ []) :
    (∀ g : Entries → Value, c.default = some (.func g) →
        processChain c dct errs = (dct, errs))
    ∧ (∀ v : Value, c.default = some (.val v) → c.storage = none →
        alookup (processChain c dct errs).1 f = some v) := by
  have hie : errs.isEmpty = false := by
    cases errs with
    | nil => exact absurd rfl herr
    | cons a l => rfl
  constructor
  · intro g hd
    rw [processChain_some c dct errs f hf, discardStep_of_absent c dct f habs]
    simp [habs, hopt, hd, hie, DefaultB.isFunc]
  · intro v hd hst
    rw [processChain_some c dct errs f hf, discardStep_of_absent c dct f habs]
    simp only [habs, hopt, hd, hie, DefaultB.isFunc, DefaultB.getvalue,
      Bool.and_false, if_false, Bool.false_eq_true, if_neg]
    rw [afterValue_fst_no_storage c _ errs _ hst]
    exact alookup_aset_self dct f v

/-- Witness for C4: the function-valued default is skipped, the constant
default is applied, both under a pre-existing error. -/
theorem c4_witness :
    processChain chainDefaultFuncB [] [("x", .msg "e")] = ([], [("x", .msg "e")])
    ∧ alookup (processChain chainDefaultValB [] [("x", .msg "e")]).1 "b" =
        some (.vint 9) :=
  ⟨(c4_default_skip_only_for_functions chainDefaultFuncB [] [("x", .msg "e")] "b"
      rfl rfl rfl (by simp)).1 _ rfl,
   (c4_default_skip_only_for_functions chainDefaultValB [] [("x", .msg "e")] "b"
      rfl rfl rfl (by simp)).2 (.vint 9) rfl rfl⟩

/-- C3 (amended): when a chain's field is present and its value equals a
discard sentinel, the field is deleted from the working output document
(core.py:344-345), not merely hidden from that one chain: stated here for an
`Optional` chain, the deletion survives in the returned state, so later chains
see the field as absent and it is missing from the output document unless a
default or storage instruction re-adds it. -/
theorem c3_discard_deletes_from_working_doc (c : Chain) (dct : Entries)
    (errs : ErrMap) (f : String) (v : Value) (hf : c.field = some f)
    (hv : alookup dct f = some v) (hdisc : vmem v c.discard = true)
    (hopt : c.opt = true) :
    processChain c dct errs = (adel dct f, errs)
    ∧ alookup (adel dct f) f = none := by
  have hds : discardStep c dct f = adel dct f := by
    unfold discardStep
    rw [hv]
    simp [hdisc]
  have hnone : alookup (adel dct f) f = none := by
    rw [alookup_adel]
    simp
  constructor
  · rw [processChain_some c dct errs f hf, hds]
    simp [hnone, hopt]
  · exact hnone

/-- Counterexample for C3 as stated: the schema of the `Discard` docstring
(core.py:143-151) run on `{"address": ""}` returns a document in which the
discarded field does not appear at all — the discard is not limited to the
one chain. -/
theorem c3_counterexample :
    schemaDiscardOpt.validate (.vdict none [("address", .vstr "")]) =
      .ok (.vdict none [])
    ∧ alookup ([] : Entries) "address" = none :=
  ⟨rfl, rfl⟩

/-- C2 (amended): Schema.run checks its input with
`Type(dict, subclasses = True)` (core.py:328), i.e. an isinstance-style check
that accepts dict subclasses; every input that is not a dict instance aborts
immediately with the single wrong-type message, never with a merged per-field
error mapping. -/
theorem c2_type_check_accepts_subclasses (s : Schema) (v : Value)
    (h : pyIssubclass v.pytype PyTy.dict = false) :
    s.validate v = .error (.msg (wrongTypeMsg [PyTy.dict] v.pytype))
    ∧ ∀ E, s.validate v ≠ .error (.nested E) := by
  have h1 : s.validate v = .error (.msg (wrongTypeMsg [PyTy.dict] v.pytype)) :=
    run_not_dict s v h
  refine ⟨h1, ?_⟩
  intro E hE
  rw [h1] at hE
  simp at hE

/-- Witness for C2 (amended) at a non-dict input. -/
theorem c2_witness :
    schemaOneRequired.validate (.vint 3) =
      .error (.msg "Wrong type. Expected dict. Got int instead.") :=
  (c2_type_check_accepts_subclasses schemaOneRequired (.vint 3) rfl).1

/-- Counterexample for C2 as stated: an input whose runtime type is a proper
subclass of dict is accepted and validated normally instead of aborting with a
type error. -/
theorem c2_counterexample :
    schemaOneRequired.validate (.vdict (some "OrderedDict") [("a", .vint 1)]) =
      .ok (.vdict none [("a", .vint 1)]) := rfl

/-- C6 (amended): when a chain with a SaveAs or MoveTo instruction fails in a
filter (core.py:376-379), the run records the filter's error under the chain's
field and then the synthetic could-not-compute error under the instruction's
target name, and the storage instruction is not applied (the working copy is
unchanged); when the target name equals the field name the second write
overwrites the first, so only the synthetic error remains under that name. -/
theorem c6_saveas_moveto_synthetic_error (c : Chain) (dct : Entries)
    (errs : ErrMap) (f n : String) (v : Value) (d : ErrDetails)
    (hf : c.field = some f)
    (hst : c.storage = some (.saveAs n) ∨ c.storage = some (.moveTo n))
    (hv : alookup dct f = some v) (hnd : vmem v c.discard = false)
    (hfail : runFilters c.filters v = .error d) :
    processChain c dct errs = (dct, aset (aset errs f d) n (.msg couldntComputeMsg))
    ∧ alookup (aset (aset errs f d) n (.msg couldntComputeMsg)) n =
        some (.msg couldntComputeMsg)
    ∧ (n ≠ f → alookup (aset (aset errs f d) n (.msg couldntComputeMsg)) f =
        some d) := by
  have hds : discardStep c dct f = dct := by
    unfold discardStep
    rw [hv]
    simp [hnd]
  refine ⟨?_, alookup_aset_self _ _ _, ?_⟩
  · rw [processChain_some c dct errs f hf, hds]
    simp only [hv]
    unfold afterValue
    rw [hfail]
    rcases hst with hst | hst <;> simp [hst, errKeyOf, hf]
  · intro hnf
    rw [alookup_aset_ne _ _ hnf, alookup_aset_self]

/-- Witness for C6 (amended): target distinct from the field, both entries
present and the working copy untouched. -/
theorem c6_witness :
    processChain chainSaveAsOther [("x", .vint 1)] [] =
      ([("x", .vint 1)],
        aset (aset ([] : ErrMap) "x" (ErrDetails.msg incorrectValueMsg)) "y"
          (ErrDetails.msg couldntComputeMsg))
    ∧ alookup (aset (aset ([] : ErrMap) "x" (ErrDetails.msg incorrectValueMsg)) "y"
        (ErrDetails.msg couldntComputeMsg)) "y" =
        some (.msg couldntComputeMsg)
    ∧ alookup (aset (aset ([] : ErrMap) "x" (ErrDetails.msg incorrectValueMsg)) "y"
        (ErrDetails.msg couldntComputeMsg)) "x" =
        some (.msg incorrectValueMsg) := by
  have h := c6_saveas_moveto_synthetic_error chainSaveAsOther [("x", .vint 1)] []
    "x" "y" (.vint 1) (.msg incorrectValueMsg) rfl (Or.inl rfl) rfl rfl rfl
  exact ⟨h.1, h.2.1, h.2.2 (by decide)⟩

/-- Counterexample for C6 as stated: with `SaveAs` targeting the chain's own
field name, the raised error mapping holds only the synthetic could-not-compute
message under that name — the filter's own error ("Incorrect value.") is not
in the mapping, so the synthetic error is not recorded "in addition to" the
filter's error. -/
theorem c6_counterexample :
    schemaSaveAsSelf.validate (.vdict none [("x", .vint 1)]) =
      .error (.nested [("x", .msg couldntComputeMsg)])
    ∧ alookup [("x", ErrDetails.msg couldntComputeMsg)] "x" ≠
        some (.msg incorrectValueMsg) := by
  refine ⟨rfl, ?_⟩
  intro h
  simp [alookup, couldntComputeMsg, incorrectValueMsg] at h

/-- C9: a `Length` filter with `min = max > 0` applied to a value of length 0
raises the empty-value message, not the exact-length message: the `l == 0`
special case at core.py:788-789 fires before the `min == max` case at
core.py:790-791. -/
theorem c9_empty_precedes_exact (m : Int) (v : Value) (hm : 0 < m)
    (hv : pyLen v = some 0) :
    (LengthF.mkDefault m (some m)).run v = .error (.msg defaultEmptyError) := by
  unfold LengthF.run
  rw [hv]
  simp [LengthF.mkDefault, hm]

/-- Witness for C9: the empty string against `Length(min=2, max=2)` yields the
empty-value message, which differs from the exact-length message. -/
theorem c9_witness :
    (LengthF.mkDefault 2 (some 2)).run (.vstr "") = .error (.msg defaultEmptyError)
    ∧ defaultEmptyError ≠ defaultExactLengthError 2 :=
  ⟨c9_empty_precedes_exact 2 (.vstr "") (by norm_num) rfl, by decide⟩

/-- C10: an `Apply` built with the default `catch = (Exception,)`
(core.py:553-568) converts every exception that is an instance of `Exception`
raised by the wrapped function into a `ValidationError` carrying the custom
message when one is configured (truthy) and `str(exc)` otherwise; each call
either returns the wrapped function's result or raises a `ValidationError`,
and no `Exception` instance ever escapes uncaught. -/
theorem c10_apply_default_catch (uf : Value → Except PyExc Value)
    (em : Option String) (v : Value) :
    (∀ r, uf v = .ok r → ApplyF.run ⟨uf, defaultCatch, em⟩ v = .ok r)
    ∧ (∀ e, uf v = .error e → e.isException = true →
        ApplyF.run ⟨uf, defaultCatch, em⟩ v =
          .validationError (.msg (applyErrText em e)))
    ∧ (∀ e, ApplyF.run ⟨uf, defaultCatch, em⟩ v = .uncaught e →
        e.isException = false) := by
  refine ⟨?_, ?_, ?_⟩
  · intro r hr
    simp [ApplyF.run, hr]
  · intro e he hexc
    simp only [ApplyF.run, he]
    rw [if_pos (by simpa [defaultCatch] using hexc)]
    cases em with
    | none => simp [truthyMsg, applyErrText]
    | some m =>
        by_cases hm : m.isEmpty
        · simp [truthyMsg, hm, applyErrText]
        · simp [truthyMsg, hm, applyErrText]
  · intro e he
    cases hu : uf v with
    | ok r =>
        have hr : ApplyF.run ⟨uf, defaultCatch, em⟩ v = .ok r := by
          simp [ApplyF.run, hu]
        rw [hr] at he
        exact absurd he (by simp)
    | error e1 =>
        by_cases hc : defaultCatch e1 = true
        · by_cases ht : truthyMsg em = true
          · have hr : ApplyF.run ⟨uf, defaultCatch, em⟩ v =
                .validationError (.msg (em.getD "")) := by
              simp [ApplyF.run, hu, hc, ht]
            rw [hr] at he
            exact absurd he (by simp)
          · have hr : ApplyF.run ⟨uf, defaultCatch, em⟩ v =
                .validationError (.msg e1.text) := by
              simp [ApplyF.run, hu, hc, ht]
            rw [hr] at he
            exact absurd he (by simp)
        · have hr : ApplyF.run ⟨uf, defaultCatch, em⟩ v = .uncaught e1 := by
            simp [ApplyF.run, hu, hc]
          rw [hr] at he
          injection he with h1
          subst h1
          simpa [defaultCatch] using hc

/-- Witness for C10: a wrapped function raising an `Exception` instance with a
configured message yields the ValidationError with that message. -/
theorem c10_witness :
    ApplyF.run ⟨boomFn, defaultCatch, some "custom"⟩ .vnone =
      .validationError (.msg "custom") :=
  (c10_apply_default_catch boomFn (some "custom") .vnone).2.1 ⟨true, "boom"⟩ rfl rfl

theorem run_vdict (s : Schema) (sub : Option String) (es : Entries) :
    s.run (.vdict sub es) =
      (if (s.runSt ⟨es, es, []⟩).errors.isEmpty then
        .ok (.vdict none (s.runSt ⟨es, es, []⟩).dct)
      else .error (.nested (s.runSt ⟨es, es, []⟩).errors)) := by
  unfold Schema.run
  rw [typeCheck_vdict]

/-- C1: for every input document missing a field that some chain requires
(names it, is not optional, has no default), provided no other chain can
synthesize that field (no default bound to it, no SaveAs/MoveTo targeting it,
no whole-document Save), `Schema.validate` raises a ValidationError whose
error mapping binds that field to the missing-field message (core.py:346-357,
387-389).  The same single error mapping satisfies this for every such missing
field of the run, so per-field failures are aggregated rather than
short-circuiting at the first failing field. -/
theorem c1_missing_field_aggregated (s : Schema) (sub : Option String)
    (es : Entries) (f : String) (c : Chain)
    (hc : c ∈ s.chains) (hf : c.field = some f) (hopt : c.opt = false)
    (hdef : c.default = none) (habs : alookup es f = none)
    (hsafe : ∀ c1 ∈ s.chains, ChainSafe f c1) :
    ∃ E, s.validate (.vdict sub es) = .error (.nested E)
      ∧ alookup E f = some (.msg fieldMissingMsg) := by
  set acc1 := if s.policy = .keep then (es, ([] : ErrMap))
    else scrubKeys s (akeys es) es [] with hacc1
  have habs1 : alookup acc1.1 f = none := by
    rw [hacc1]
    by_cases hp : s.policy = .keep
    · simpa [hp] using habs
    · simp only [hp, if_false, ite_false]
      exact scrubKeys_absent s (akeys es) f es [] habs
  obtain ⟨pre, post, hsplit⟩ := List.append_of_mem hc
  have hsafePre : ∀ c1 ∈ pre, ChainSafe f c1 := by
    intro c1 h1
    apply hsafe
    rw [hsplit]
    simp [h1]
  have hsafePost : ∀ c1 ∈ post, ChainSafe f c1 := by
    intro c1 h1
    apply hsafe
    rw [hsplit]
    simp [h1]
  have hrun : chainsRun s.chains acc1 =
      chainsRun post
        (processChain c (chainsRun pre acc1).1 (chainsRun pre acc1).2) := by
    rw [hsplit, chainsRun_append]
    rfl
  have habsPre : alookup (chainsRun pre acc1).1 f = none :=
    chainsRun_absent pre f hsafePre acc1 habs1
  have hstep : processChain c (chainsRun pre acc1).1 (chainsRun pre acc1).2 =
      ((chainsRun pre acc1).1,
        aset (chainsRun pre acc1).2 f (.msg fieldMissingMsg)) :=
    processChain_missing_rec c _ _ f hf hopt hdef habsPre
  have hfinal : alookup (chainsRun s.chains acc1).2 f =
      some (.msg fieldMissingMsg) := by
    rw [hrun, hstep]
    exact chainsRun_missing post f hsafePost _ habsPre (alookup_aset_self _ _ _)
  have hie : (chainsRun s.chains acc1).2.isEmpty = false :=
    alookup_isEmpty_false hfinal
  refine ⟨(chainsRun s.chains acc1).2, ?_, hfinal⟩
  have hv : s.validate (.vdict sub es) = s.run (.vdict sub es) := rfl
  rw [hv, run_vdict]
  simp only [Schema.runSt, ← hacc1]
  simp [hie]

/-- Witness for C1: with both required fields "a" and "b" missing from the
input, one and the same raised error mapping binds each of them to the
missing-field message. -/
theorem c1_witness :
    ∃ E, schemaTwoRequired.validate (.vdict none []) = .error (.nested E)
      ∧ alookup E "a" = some (.msg fieldMissingMsg)
      ∧ alookup E "b" = some (.msg fieldMissingMsg) := by
  have hsafeA : ∀ c1 ∈ schemaTwoRequired.chains, ChainSafe "a" c1 := by
    intro c1 h1
    simp [schemaTwoRequired] at h1
    rcases h1 with h1 | h1 <;> subst h1 <;> simp [ChainSafe, chainReqA, chainReqB]
  have hsafeB : ∀ c1 ∈ schemaTwoRequired.chains, ChainSafe "b" c1 := by
    intro c1 h1
    simp [schemaTwoRequired] at h1
    rcases h1 with h1 | h1 <;> subst h1 <;> simp [ChainSafe, chainReqA, chainReqB]
  obtain ⟨E1, h1, ha⟩ := c1_missing_field_aggregated schemaTwoRequired none [] "a"
    chainReqA (by simp [schemaTwoRequired]) rfl rfl rfl rfl hsafeA
  obtain ⟨E2, h2, hb⟩ := c1_missing_field_aggregated schemaTwoRequired none [] "b"
    chainReqB (by simp [schemaTwoRequired]) rfl rfl rfl rfl hsafeB
  have hE : E1 = E2 := by
    rw [h1] at h2
    injection h2 with h3
    injection h3 with h4
  exact ⟨E1, h1, ha, hE ▸ hb⟩

theorem run_clean (s : Schema) (D : Entries)
    (hscrub : (if s.policy = .keep then ((D, ([] : ErrMap)) : Entries × ErrMap)
        else scrubKeys s (akeys D) D []) = (D, ([] : ErrMap)))
    (K : chainsRun s.chains (D, ([] : ErrMap)) = (D, ([] : ErrMap))) :
    s.run (.vdict none D) = .ok (.vdict none D) := by
  rw [run_vdict]
  have hstruct : s.runSt ⟨D, D, []⟩ = ⟨D, D, []⟩ := by
    show RState.mk D
        (chainsRun s.chains (if s.policy = .keep then (D, ([] : ErrMap))
          else scrubKeys s (akeys D) D [])).1
        (chainsRun s.chains (if s.policy = .keep then (D, ([] : ErrMap))
          else scrubKeys s (akeys D) D [])).2 = ⟨D, D, []⟩
    rw [hscrub, K]
  rw [hstruct]
  rfl

/-- C8 (amended): validate is idempotent for schemas whose chains carry no
storage instruction, no default and no discard set: for such schemas the chain
loop never modifies the working copy (core.py:339-385), so a successful
`validate(D)` returns the scrubbed copy of D, which the second run scrubs and
validates identically.  (With defaults or discards present the property fails,
see the counterexample.) -/
theorem c8_idempotent_without_modifiers (s : Schema)
    (hplain : ∀ c ∈ s.chains, PlainChain c)
    (d dOut : Value) (h : s.validate d = .ok dOut) :
    s.validate dOut = .ok dOut := by
  have hvr : ∀ v : Value, s.validate v = s.run v := fun v => rfl
  cases d with
  | vint n =>
      rw [hvr, run_not_dict s (.vint n) rfl] at h
      exact absurd h (by simp)
  | vbool b =>
      rw [hvr, run_not_dict s (.vbool b) rfl] at h
      exact absurd h (by simp)
  | vstr s1 =>
      rw [hvr, run_not_dict s (.vstr s1) rfl] at h
      exact absurd h (by simp)
  | vnone =>
      rw [hvr, run_not_dict s .vnone rfl] at h
      exact absurd h (by simp)
  | vlist xs =>
      rw [hvr, run_not_dict s (.vlist xs) rfl] at h
      exact absurd h (by simp)
  | vobj t i =>
      rw [hvr, run_not_dict s (.vobj t i) rfl] at h
      exact absurd h (by simp)
  | vdict sub es =>
      rw [hvr, run_vdict] at h
      set A : Entries × ErrMap := if s.policy = .keep then (es, ([] : ErrMap))
        else scrubKeys s (akeys es) es [] with hA
      have hstruct : s.runSt ⟨es, es, []⟩ =
          ⟨es, (chainsRun s.chains A).1, (chainsRun s.chains A).2⟩ := by
        rw [hA]
        rfl
      rw [hstruct] at h
      by_cases hie : (chainsRun s.chains A).2.isEmpty
      · rw [if_pos hie] at h
        injection h with h1
        have herr0 : (chainsRun s.chains A).2 = [] := by
          cases hcase : (chainsRun s.chains A).2 with
          | nil => rfl
          | cons a l =>
              rw [hcase] at hie
              simp [List.isEmpty] at hie
        have hA2 : A.2 = [] := by
          by_contra hne
          exact (chainsRun_errs_ne_nil s.chains A hne) herr0
        have hD : (chainsRun s.chains A).1 = A.1 :=
          chainsRun_fst_plain s.chains hplain A
        have hAeq : A = (A.1, ([] : ErrMap)) := by
          rw [← hA2]
        have K : chainsRun s.chains (A.1, ([] : ErrMap)) = (A.1, ([] : ErrMap)) := by
          rw [← hAeq]
          exact Prod.ext hD (herr0.trans hA2.symm)
        have hscrub2 : (if s.policy = .keep then ((A.1, ([] : ErrMap)) : Entries × ErrMap)
            else scrubKeys s (akeys A.1) A.1 []) = (A.1, ([] : ErrMap)) := by
          by_cases hp : s.policy = .keep
          · simp [hp]
          · simp only [hp, if_false, ite_false]
            apply scrubKeys_id_of_expected
            intro k hk
            by_contra hknot
            have hlookA : alookup A.1 k ≠ none := by
              intro hnone
              exact ((alookup_eq_none_iff A.1 k).mp hnone) hk
            have hAval : A = scrubKeys s (akeys es) es [] := by
              rw [hA]
              simp [hp]
            have hside : k ∈ akeys es ∨ alookup es k = none := by
              cases hlook : alookup es k with
              | some v =>
                  left
                  by_contra hmem
                  rw [(alookup_eq_none_iff es k).mpr hmem] at hlook
                  exact Option.noConfusion hlook
              | none => exact Or.inr rfl
            have := scrubKeys_unexpected_none s (akeys es) k hknot es [] hside
            rw [← hAval] at this
            exact hlookA this
        have hout : dOut = .vdict none A.1 := by
          rw [← h1, hD]
        rw [hout, hvr]
        exact run_clean s A.1 hscrub2 K
      · rw [if_neg hie] at h
        exact absurd h (by simp)

/-- Witness for C8 (amended) at a concrete storage/default/discard-free schema
and a document that validates. -/
theorem c8_witness :
    schemaOneRequired.validate (.vdict none [("a", .vint 1)]) =
      .ok (.vdict none [("a", .vint 1)]) := by
  have hplain : ∀ c ∈ schemaOneRequired.chains, PlainChain c := by
    intro c hcm
    simp [schemaOneRequired] at hcm
    subst hcm
    simp [PlainChain, chainReqA]
  exact c8_idempotent_without_modifiers schemaOneRequired hplain
    (.vdict none [("a", .vint 1)]) (.vdict none [("a", .vint 1)]) rfl

/-- Counterexample for C8 as stated: a schema with no storage instructions
(only Discard, Optional and Default markers) and a document D that validates,
where validate(validate(D)) differs from validate(D): the second pass re-runs
the document-dependent default of "a" against the transformed value of "z". -/
theorem c8_counterexample :
    (schemaNotIdempotent.chains.map (fun c => c.storage)) = [none, none, none]
    ∧ schemaNotIdempotent.validate (.vdict none [("z", .vint 5)]) =
        .ok (.vdict none [("z", .vint 7)])
    ∧ schemaNotIdempotent.validate (.vdict none [("z", .vint 7)]) =
        .ok (.vdict none [("z", .vint 7), ("a", .vint 7)])
    ∧ (Value.vdict none [("z", .vint 7), ("a", .vint 7)] ≠
        Value.vdict none [("z", .vint 7)]) := by
  refine ⟨rfl, rfl, rfl, ?_⟩
  intro hcontra
  simp at hcontra

/-- Witness for C3 (amended): discarding the empty string from an optional
"address" chain removes the binding from the working document. -/
theorem c3_witness :
    processChain ⟨some "address", [.vstr ""], true, none, [], none⟩
        [("address", .vstr "")] [] =
      (adel [("address", Value.vstr "")] "address", [])
    ∧ alookup (adel [("address", Value.vstr "")] "address") "address" = none :=
  c3_discard_deletes_from_working_doc
    ⟨some "address", [.vstr ""], true, none, [], none⟩
    [("address", .vstr "")] [] "address" (.vstr "") rfl rfl rfl rfl
